import Mathlib

/-!
Verification of the tenant-isolated knowledge-graph memory layer
(`backend/app/services/graph_utils.py`, `backend/app/services/dspy_config.py`,
`backend/app/services/dspy_modules.py`, `backend/app/routers/query.py`).

The Python code is shallowly embedded: external effects (the graph engine's
episode submission, relevance search, namespace enumeration, and the LLM call)
are passed in as explicit outcome values or oracle functions, Python
exceptions are modelled with `Except`, and Python dictionaries whose key set
varies are modelled either as association lists (where a `KeyError` matters)
or as structures with `Option` fields (where only the present keys matter).
-/

set_option autoImplicit false

deriving instance DecidableEq for Except

namespace MemoryApi

/-- Python truthiness of an optional string parameter (`if category:`):
`None` and the empty string are falsy, every other string is truthy. -/
def pyTruthyStr : Option String → Bool
  | Option.none => false
  | Option.some s => !s.isEmpty

/-- The tenant namespace key built at graph_utils.py:122, graph_utils.py:182 and
query.py:78/118: the Python f-string `f"user_{user_id}_{category}"`. -/
def resolveNamespace (user_id category : String) : String :=
  "user_" ++ user_id ++ "_" ++ category

/-- The per-user namespace key built at graph_utils.py:233 and
query.py:91/132: the Python f-string `f"user_{user_id}_"`. -/
def userPrefix (user_id : String) : String :=
  "user_" ++ user_id ++ "_"

/-- graphiti_core `EpisodeType` as used by `add_knowledge`. -/
inductive EpisodeType where
  | text
  | message
  | json
deriving DecidableEq

/-- The `.value` of an `EpisodeType` member (its string payload). -/
def EpisodeType.value : EpisodeType → String
  | EpisodeType.text => "text"
  | EpisodeType.message => "message"
  | EpisodeType.json => "json"

/-- The successful result of `client.add_episode`: graph_utils.py:147 reads
`result.episode.uuid` when the attribute `episode` is present and substitutes
`""` otherwise, so the episode reference carries an optional uuid. -/
structure EpisodeRef where
  episodeUuid : Option String
deriving DecidableEq

/-- The dictionary returned by `GraphitiKnowledgeGraph.add_knowledge`
(graph_utils.py:142-160).  The success dictionary carries `episode_uuid`,
`timestamp` and `episode_type`; the failure dictionary carries `error`;
absent keys are `Option.none`. -/
structure AddResult where
  success : Bool
  user_id : String
  category : String
  group_id : String
  episode_uuid : Option String
  timestamp : Option String
  episode_type : Option String
  error : Option String
deriving DecidableEq

/-- `GraphitiKnowledgeGraph.add_knowledge` (graph_utils.py:86-160).  The call
`await self.client.add_episode(...)` is the only statement inside the `try`
block; its outcome is passed in as `submit`.  An exception from the engine
(`Except.error e`) is caught by the `except Exception` handler and turned
into the `success: False` dictionary; it is never re-raised, so the function
is total on every submission outcome. -/
def add_knowledge (user_id category : String) (reference_time : String)
    (episode_type : EpisodeType) (submit : Except String EpisodeRef) : AddResult :=
  let group_id := "user_" ++ user_id ++ "_" ++ category
  match submit with
  | Except.ok r =>
      { success := true
        user_id := user_id
        category := category
        group_id := group_id
        episode_uuid := Option.some (match r.episodeUuid with
          | Option.some x => x
          | Option.none => "")
        timestamp := Option.some reference_time
        episode_type := Option.some episode_type.value
        error := Option.none }
  | Except.error e =>
      { success := false
        user_id := user_id
        category := category
        group_id := group_id
        episode_uuid := Option.none
        timestamp := Option.none
        episode_type := Option.none
        error := Option.some e }

/-- One relationship record returned by the graph engine's `search`
(graph_utils.py:199-206 reads these attributes off each edge). -/
structure GraphEdgeRec where
  source_node_uuid : String
  name : String
  target_node_uuid : String
  fact : String
  created_at : Option String
deriving DecidableEq

/-- One normalized fact dictionary (graph_utils.py:200-206). -/
structure FactRec where
  source : String
  relation : String
  target : String
  fact : String
  created_at : Option String
deriving DecidableEq

/-- The per-edge normalization at graph_utils.py:200-206. -/
def factOfEdge (e : GraphEdgeRec) : FactRec :=
  { source := e.source_node_uuid
    relation := e.name
    target := e.target_node_uuid
    fact := e.fact
    created_at := e.created_at }

/-- The dictionary returned by `GraphitiKnowledgeGraph.search_knowledge`.
Three shapes occur (graph_utils.py:187, 208-214, 217-221); keys absent from
a given shape are `Option.none`.  The early-return dictionary uses the key
`group_ids`, the other two use `group_id`. -/
structure SearchResult where
  success : Bool
  group_ids : Option (List String)
  group_id : Option (List String)
  query : Option String
  num_results : Option Nat
  facts : Option (List FactRec)
  error : Option String
deriving DecidableEq

/-- `GraphitiKnowledgeGraph.search_knowledge` (graph_utils.py:162-221).
`enumerate` is the outcome of `self._get_group_ids_for_user(user_id)`
(an exception from it propagates: that call sits before the `try` block);
`engine` is the outcome of `self.client.search(...)` on the given group ids
and result ceiling, whose exception is caught at graph_utils.py:216.
The returned Boolean records whether the engine search was invoked. -/
def search_knowledge (query user_id : String) (category : Option String)
    (num_results : Nat) (enumerate : Except String (List String))
    (engine : List String → Nat → Except String (List GraphEdgeRec)) :
    Except String (SearchResult × Bool) := do
  let group_ids ← (if pyTruthyStr category then
      Except.ok [resolveNamespace user_id (category.getD "")]
    else enumerate)
  if group_ids.isEmpty then
    return ({ success := true
              group_ids := Option.some group_ids
              group_id := Option.none
              query := Option.some query
              num_results := Option.some 0
              facts := Option.some []
              error := Option.none }, false)
  else
    match engine group_ids num_results with
    | Except.ok edges =>
        let facts := edges.map factOfEdge
        return ({ success := true
                  group_ids := Option.none
                  group_id := Option.some group_ids
                  query := Option.some query
                  num_results := Option.some facts.length
                  facts := Option.some facts
                  error := Option.none }, true)
    | Except.error e =>
        return ({ success := false
                  group_ids := Option.none
                  group_id := Option.some group_ids
                  query := Option.none
                  num_results := Option.none
                  facts := Option.none
                  error := Option.some e }, true)

/-- Outcome of one underlying `super().__call__` attempt inside
`GroqSafeLM.__call__` (dspy_config.py:10-16): a value, a `RateLimitError`,
or any other exception. -/
inductive CallOutcome (α : Type) where
  | success (v : α)
  | rateLimit
  | failure (e : String)
deriving DecidableEq

/-- How `GroqSafeLM.__call__` can fail: a non-rate-limit exception that
propagates out of the `try` uncaught, or the terminal exception raised after
the loop (dspy_config.py:17). -/
inductive CallError where
  | propagated (e : String)
  | exhausted (msg : String)
deriving DecidableEq

/-- The retry loop body of `GroqSafeLM.__call__` (dspy_config.py:10-16):
`for attempt in range(retries)` with the pending attempt indices as a list.
On a rate-limit outcome the current `delay` is slept (recorded in the
returned list) and `delay` is doubled; on success the value is returned; on
any other exception it propagates immediately.  Falling off the loop raises
the terminal exception. -/
def callAttempts {α : Type} (f : Nat → CallOutcome α) :
    List Nat → Nat → Except CallError α × List Nat
  | [], _ => (Except.error (CallError.exhausted "Groq rate limit exceeded repeatedly."), [])
  | attempt :: rest, delay =>
    match f attempt with
    | CallOutcome.success v => (Except.ok v, [])
    | CallOutcome.failure e => (Except.error (CallError.propagated e), [])
    | CallOutcome.rateLimit =>
      let r := callAttempts f rest (delay * 2)
      (r.1, delay :: r.2)

/-- `GroqSafeLM.__call__` (dspy_config.py:7-17): `retries = 5`, `delay = 2`,
attempts `range(5)`.  Returns the call result (or error) together with the
list of sleep durations performed, in order. -/
def groqSafeCall {α : Type} (f : Nat → CallOutcome α) : Except CallError α × List Nat :=
  callAttempts f (List.range 5) 2

/-- A Python value as it appears in a neo4j record dictionary: `None`, a
string, or something of another type (a map, a number, ...) that is never
inspected by the label expression beyond being truthy. -/
inductive PyVal where
  | vnone
  | vstr (s : String)
  | vother
deriving DecidableEq

/-- Python truthiness of a record value: `None` is falsy, a string is falsy
exactly when empty, the remaining (map-like) values occurring here are truthy. -/
def pyTruthy : PyVal → Bool
  | PyVal.vnone => false
  | PyVal.vstr s => !s.isEmpty
  | PyVal.vother => true

/-- Subscript access `d[k]` on a Python dictionary: a missing key raises
`KeyError(k)`, modelled as `Except.error k`. -/
def dictGet (d : List (String × PyVal)) (k : String) : Except String PyVal :=
  match d.find? (fun p => p.1 == k) with
  | Option.some p => Except.ok p.2
  | Option.none => Except.error k

/-- Lift an optional Cypher string property (`n.name`, `n.uuid`) to the value
seen in the record: Cypher `NULL` becomes Python `None`. -/
def optStrVal : Option String → PyVal
  | Option.none => PyVal.vnone
  | Option.some s => PyVal.vstr s

/-- One row produced by the nodes Cypher query of `get_graph_visualization`
(query.py:79-102): it projects `elementId(n)`, `properties(n)`, `n.name`,
`n.uuid` and a random position for an entity node. -/
structure NodeRow where
  elemId : String
  name : Option String
  uuid : Option String
deriving DecidableEq

/-- The dictionary `record.data()` for one row of the nodes query
(query.py:104-105): its keys are exactly the five projected aliases
`id`, `props`, `name`, `uuid`, `position` — there is no `title` key. -/
def nodeRecordData (r : NodeRow) : List (String × PyVal) :=
  [("id", PyVal.vstr r.elemId), ("props", PyVal.vother),
   ("name", optStrVal r.name), ("uuid", optStrVal r.uuid),
   ("position", PyVal.vother)]

/-- The label expression at query.py:108,
`data['name'] or data['title'] or data['uuid'] or 'Node'`: Python `or`
short-circuits on the first truthy operand, and each subscript can raise
`KeyError` (propagated here through `Except`). -/
def nodeLabel (d : List (String × PyVal)) : Except String PyVal := do
  let n ← dictGet d "name"
  if pyTruthy n then pure n
  else do
    let t ← dictGet d "title"
    if pyTruthy t then pure t
    else do
      let u ← dictGet d "uuid"
      if pyTruthy u then pure u
      else pure (PyVal.vstr "Node")

/-- A node of the Neo4j store: element id, whether it carries the `Entity`
label, and its optional `group_id` property. -/
structure GNode where
  nid : Nat
  isEntity : Bool
  group_id : Option String
deriving DecidableEq

/-- A relationship of the Neo4j store between two nodes (by element id). -/
structure GRel where
  rid : Nat
  src : Nat
  tgt : Nat
  rtype : String
deriving DecidableEq

/-- The graph store contents visible to the visualization queries. -/
structure GraphDB where
  nodes : List GNode
  rels : List GRel

/-- One edge record emitted by `get_graph_visualization`
(query.py:123-127/140-145): `elementId(r)`, the two endpoint element ids,
and `type(r)` as label. -/
structure EdgeOut where
  eid : Nat
  source : Nat
  target : Nat
  label : String
deriving DecidableEq

/-- Resolve a node element id in the store. -/
def findNode (db : GraphDB) (i : Nat) : Option GNode :=
  db.nodes.find? (fun n => n.nid == i)

/-- Cypher `STARTS WITH` on the underlying character lists
(first argument: the candidate start, second: the full string). -/
def startsWithList : List Char → List Char → Bool
  | [], _ => true
  | _ :: _, [] => false
  | p :: ps, c :: cs => (p == c) && startsWithList ps cs

/-- Cypher `g STARTS WITH pre`. -/
def strStartsWith (g pre : String) : Bool :=
  startsWithList pre.data g.data

/-- The `WHERE` clause of the category-scoped edges query (query.py:120-129):
`s.group_id = $group_id AND t.group_id = $group_id`.  A `NULL` property makes
the Cypher comparison fail. -/
def edgeCondCat (gid : String) (s t : GNode) : Bool :=
  (s.group_id == Option.some gid) && (t.group_id == Option.some gid)

/-- The `WHERE` clause of the prefix-scoped edges query (query.py:133-146):
both `group_id`s are non-`NULL`, both start with the user's key start, and
`s.group_id = t.group_id`. -/
def edgeCondPre (pre : String) (s t : GNode) : Bool :=
  match s.group_id, t.group_id with
  | Option.some gs, Option.some gt =>
      strStartsWith gs pre && strStartsWith gt pre && (gs == gt)
  | _, _ => false

/-- Evaluation of `MATCH (s:Entity)-[r]->(t:Entity) WHERE cond RETURN ...`
over the store: every relationship whose two endpoints resolve, carry the
`Entity` label and satisfy the condition yields one edge record. -/
def edgeRows (db : GraphDB) (cond : GNode → GNode → Bool) : List EdgeOut :=
  db.rels.filterMap (fun r =>
    match findNode db r.src, findNode db r.tgt with
    | Option.some s, Option.some t =>
        if s.isEntity && t.isEntity && cond s t then
          Option.some { eid := r.rid, source := r.src, target := r.tgt, label := r.rtype }
        else Option.none
    | _, _ => Option.none)

/-- The edge list built by `get_graph_visualization` (query.py:117-150):
the category branch (`if category:` — string truthiness) runs the
exact-namespace query, the other branch the prefix query. -/
def visualizeEdges (db : GraphDB) (user_id : String) (category : Option String) :
    List EdgeOut :=
  if pyTruthyStr category then
    edgeRows db (edgeCondCat (resolveNamespace user_id (category.getD "")))
  else
    edgeRows db (edgeCondPre (userPrefix user_id))

/-- The namespace set an export call is scoped to: the single resolved
namespace when a category is given, otherwise every `group_id` present in
the store that starts with the user's key start. -/
def scopedNamespaces (db : GraphDB) (user_id : String) (category : Option String) :
    List String :=
  if pyTruthyStr category then [resolveNamespace user_id (category.getD "")]
  else (db.nodes.filterMap (fun n => n.group_id)).filter
    (fun g => strStartsWith g (userPrefix user_id))

/-- ASCII Python whitespace, the characters `str.split()` and `str.strip()`
split and strip on: space, tab, newline, carriage return, vertical tab,
form feed. -/
def pyIsSpace (c : Char) : Bool :=
  (c == ' ') || (c == '\t') || (c == '\n') || (c == '\r') ||
  (c == Char.ofNat 11) || (c == Char.ofNat 12)

/-- Matching of the lazy tail `.*?>` of the pattern `<.*?>` of
`re.sub(r'<.*?>', '', text)` (dspy_modules.py:27) after an opening `<`:
scan forward for the first `>`; `.` does not match a newline, so a newline
before any `>` means no match at this opening bracket.  On a match, return
the characters after the closing `>`. -/
def findClose : List Char → Option (List Char)
  | [] => Option.none
  | c :: rest =>
    if c == '>' then Option.some rest
    else if c == '\n' then Option.none
    else findClose rest

/-- Fuelled scan of `re.sub(r'<.*?>', '', text)`: at each position, a `<`
that closes (per `findClose`) starts the leftmost-shortest match and is
removed together with everything through its `>`; any other character is
kept.  `findClose` returns a strict suffix, so fuel equal to the input
length suffices (see `removeTags`). -/
def removeTagsAux : Nat → List Char → List Char
  | 0, _ => []
  | _ + 1, [] => []
  | fuel + 1, c :: rest =>
    if c == '<' then
      match findClose rest with
      | Option.some rest2 => removeTagsAux fuel rest2
      | Option.none => c :: removeTagsAux fuel rest
    else c :: removeTagsAux fuel rest

/-- `re.sub(r'<.*?>', '', text)` at dspy_modules.py:27, on character lists. -/
def removeTags (l : List Char) : List Char :=
  removeTagsAux l.length l

/-- Python `text.split()` (no argument) at dspy_modules.py:30: split on runs
of whitespace, discarding empty pieces.  `acc` holds the current word in
reverse. -/
def splitWs : List Char → List Char → List (List Char)
  | [], acc => if acc.isEmpty then [] else [acc.reverse]
  | c :: rest, acc =>
    if pyIsSpace c then
      if acc.isEmpty then splitWs rest []
      else acc.reverse :: splitWs rest []
    else splitWs rest (c :: acc)

/-- Python `' '.join(words)` at dspy_modules.py:30: one single space between
consecutive words. -/
def joinSpace : List (List Char) → List Char
  | [] => []
  | [w] => w
  | w :: ws => w ++ ' ' :: joinSpace ws

/-- Python `text.strip()` at dspy_modules.py:33: drop leading and trailing
whitespace. -/
def pyStrip (l : List Char) : List Char :=
  ((l.dropWhile pyIsSpace).reverse.dropWhile pyIsSpace).reverse

/-- `GraphRAGModule._clean_response` (dspy_modules.py:25-35): tag removal,
then whitespace-run collapsing via `' '.join(text.split())`, then `strip`. -/
def cleanResponse (s : String) : String :=
  String.mk (pyStrip (joinSpace (splitWs (removeTags s.data) [])))

/-- No two consecutive characters are both whitespace. -/
def noDoubleWs : List Char → Bool
  | c :: d :: rest => !(pyIsSpace c && pyIsSpace d) && noDoubleWs (d :: rest)
  | _ => true

/-- The first character, when present, is not whitespace. -/
def headNotWs : List Char → Bool
  | [] => true
  | c :: _ => !pyIsSpace c

/-- The text still contains a match of the tag pattern `<.*?>`: some `<`
followed by a `>` with no intervening newline. -/
def hasTag : List Char → Bool
  | [] => false
  | c :: rest => ((c == '<') && (findClose rest).isSome) || hasTag rest

/-- A concrete store used to instantiate the scoped-edges theorem: two
entities of user 1 in namespace `user_1_work` joined by one relationship,
plus an entity of user 2. -/
def sampleDb : GraphDB :=
  { nodes := [ { nid := 0, isEntity := true, group_id := Option.some "user_1_work" }
             , { nid := 1, isEntity := true, group_id := Option.some "user_1_work" }
             , { nid := 2, isEntity := true, group_id := Option.some "user_2_work" } ]
    rels := [ { rid := 10, src := 0, tgt := 1, rtype := "KNOWS" } ] }

/-- C1: for every text/user/category input and every outcome of the graph
engine's episode submission, `add_knowledge` returns a structured dictionary
and never raises: on success `{success: true, user_id, category, group_id,
episode_uuid, timestamp, episode_type}` (the spec's namespace/episodeId/
episodeKind), and on any submission failure `{success: false, user_id,
category, group_id, error}` — the failure is captured as data, not
propagated.  The two equations cover every constructor of the submission
outcome, and `add_knowledge` is a total function into `AddResult`. -/
theorem C1_add_knowledge_total_structured (u c t : String) (et : EpisodeType)
    (r : EpisodeRef) (e : String) :
    add_knowledge u c t et (Except.ok r) =
      { success := true
        user_id := u
        category := c
        group_id := resolveNamespace u c
        episode_uuid := Option.some (match r.episodeUuid with
          | Option.some x => x
          | Option.none => "")
        timestamp := Option.some t
        episode_type := Option.some et.value
        error := Option.none } ∧
    add_knowledge u c t et (Except.error e) =
      { success := false
        user_id := u
        category := c
        group_id := resolveNamespace u c
        episode_uuid := Option.none
        timestamp := Option.none
        episode_type := Option.none
        error := Option.some e } :=
  ⟨rfl, rfl⟩

/-- C2: the claim says an entity with no name, title or identifier yields
label `"Node"` and the export still succeeds.  The code disagrees: the nodes
query projects no `title` alias, so `data['title']` at query.py:108 raises
`KeyError('title')` as soon as `data['name']` is falsy — the `'Node'`
fallback written in that very expression is unreachable.  An entity whose
`name` is non-empty does get its name as label (second conjunct), which
shows the fallback chain was the intent. -/
theorem C2_label_keyerror_on_missing_name :
    nodeLabel (nodeRecordData { elemId := "4:abc:0", name := Option.none, uuid := Option.none })
      = Except.error "title" ∧
    nodeLabel (nodeRecordData { elemId := "4:abc:0", name := Option.some "", uuid := Option.some "u-1" })
      = Except.error "title" ∧
    nodeLabel (nodeRecordData { elemId := "4:abc:0", name := Option.some "Alice", uuid := Option.none })
      = Except.ok (PyVal.vstr "Alice") := by
  decide

/-- C4: `search_knowledge` with no category and an enumeration that yields
the empty namespace set returns `{success: true, group_ids: [], query,
num_results: 0, facts: []}` (the spec's `count` is `num_results`) without
invoking the engine search — the second component records that the engine
oracle was never called. -/
theorem C4_empty_scope_short_circuit (q u : String) (n : Nat)
    (engine : List String → Nat → Except String (List GraphEdgeRec)) :
    search_knowledge q u Option.none n (Except.ok []) engine =
      Except.ok ({ success := true
                   group_ids := Option.some []
                   group_id := Option.none
                   query := Option.some q
                   num_results := Option.some 0
                   facts := Option.some []
                   error := Option.none }, false) :=
  rfl

/-- C9: a structural failure of the namespace enumeration propagates out of
`search_knowledge` (first conjunct), because the enumeration call sits
before the `try` block; by contrast a failure of the engine search itself is
captured as a `{success: false, group_id, error}` dictionary (second
conjunct). -/
theorem C9_enumeration_failure_propagates (q u e : String) (n : Nat)
    (engine : List String → Nat → Except String (List GraphEdgeRec)) :
    search_knowledge q u Option.none n (Except.error e) engine = Except.error e ∧
    (∀ (gids : List String) (e2 : String), gids.isEmpty = false →
      engine gids n = Except.error e2 →
      search_knowledge q u Option.none n (Except.ok gids) engine =
        Except.ok ({ success := false
                     group_ids := Option.none
                     group_id := Option.some gids
                     query := Option.none
                     num_results := Option.none
                     facts := Option.none
                     error := Option.some e2 }, true)) := by
  constructor
  · rfl
  · intro gids e2 h1 h2
    have h1' : ¬ gids = [] := by simpa using h1
    simp [search_knowledge, pyTruthyStr, bind, Except.bind, pure, Except.pure, h1', h2]

/-- Witness for C9 at concrete inputs: a failing enumeration propagates its
message, and a failing engine search is captured as data. -/
theorem C9_enumeration_failure_propagates_witness :
    search_knowledge "q" "1" Option.none 10 (Except.error "boom")
        (fun _ _ => Except.error "down") = Except.error "boom" ∧
    search_knowledge "q" "1" Option.none 10 (Except.ok ["user_1_work"])
        (fun _ _ => Except.error "down") =
      Except.ok ({ success := false
                   group_ids := Option.none
                   group_id := Option.some ["user_1_work"]
                   query := Option.none
                   num_results := Option.none
                   facts := Option.none
                   error := Option.some "down" }, true) := by
  have h := C9_enumeration_failure_propagates "q" "1" "boom" 10
    (fun _ _ => Except.error "down")
  exact ⟨h.1, h.2 ["user_1_work"] "down" (by decide) rfl⟩

/-- C10: calling `search_knowledge` with category equal to the empty string
behaves exactly like omitting the category, for every enumeration outcome
and engine: the presence check at graph_utils.py:181 is Python string
truthiness, so `""` takes the enumeration branch, not the single namespace
`user_{userId}_`. -/
theorem C10_empty_category_like_none (q u : String) (n : Nat)
    (enumerate : Except String (List String))
    (engine : List String → Nat → Except String (List GraphEdgeRec)) :
    search_knowledge q u (Option.some "") n enumerate engine =
      search_knowledge q u Option.none n enumerate engine :=
  rfl

/-- C7: a wrapped call that hits the rate limit exactly twice and then
succeeds makes `GroqSafeLM.__call__` return the success value after sleeping
exactly twice, for `d = 2` seconds and then `2 * d = 4` seconds; a call whose
first attempt fails with a non-rate-limit error propagates it immediately,
with no retry and no sleep. -/
theorem C7_retry_twice_then_success (f g : Nat → CallOutcome Nat) (v : Nat) (e : String)
    (h0 : f 0 = CallOutcome.rateLimit) (h1 : f 1 = CallOutcome.rateLimit)
    (h2 : f 2 = CallOutcome.success v) (hg : g 0 = CallOutcome.failure e) :
    groqSafeCall f = (Except.ok v, [2, 4]) ∧
    groqSafeCall g = (Except.error (CallError.propagated e), []) := by
  have hr : List.range 5 = [0, 1, 2, 3, 4] := rfl
  constructor
  · simp [groqSafeCall, hr, callAttempts, h0, h1, h2]
  · simp [groqSafeCall, hr, callAttempts, hg]

/-- Witness for C7: two concrete behaviours, one rate-limited twice then
successful, one failing outright. -/
theorem C7_retry_twice_then_success_witness :
    groqSafeCall (fun n => if n < 2 then CallOutcome.rateLimit else CallOutcome.success 7)
      = (Except.ok 7, [2, 4]) ∧
    groqSafeCall (fun _ => (CallOutcome.failure "bad request" : CallOutcome Nat))
      = (Except.error (CallError.propagated "bad request"), []) :=
  C7_retry_twice_then_success
    (fun n => if n < 2 then CallOutcome.rateLimit else CallOutcome.success 7)
    (fun _ => CallOutcome.failure "bad request") 7 "bad request" rfl rfl rfl rfl

/-- C8: a wrapped call that hits the rate limit on every attempt makes
`GroqSafeLM.__call__` raise the terminal `"Groq rate limit exceeded
repeatedly."` failure after the fixed ceiling of 5 attempts (one sleep per
attempt: 2, 4, 8, 16, 32 seconds) — it never returns a default value. -/
theorem C8_exhaustion_raises_terminal (f : Nat → CallOutcome Nat)
    (h : ∀ n, f n = CallOutcome.rateLimit) :
    groqSafeCall f =
      (Except.error (CallError.exhausted "Groq rate limit exceeded repeatedly."),
       [2, 4, 8, 16, 32]) := by
  have hr : List.range 5 = [0, 1, 2, 3, 4] := rfl
  simp [groqSafeCall, hr, callAttempts, h]

/-- Witness for C8: the always-rate-limited behaviour. -/
theorem C8_exhaustion_raises_terminal_witness :
    groqSafeCall (fun _ => (CallOutcome.rateLimit : CallOutcome Nat)) =
      (Except.error (CallError.exhausted "Groq rate limit exceeded repeatedly."),
       [2, 4, 8, 16, 32]) :=
  C8_exhaustion_raises_terminal (fun _ => CallOutcome.rateLimit) (fun _ => rfl)

/-- Splitting a character list at a separator character is unambiguous when
neither left part contains the separator. -/
theorem underscore_split : ∀ (a b c d : List Char), '_' ∉ a → '_' ∉ b →
    a ++ '_' :: c = b ++ '_' :: d → a = b ∧ c = d := by
  intro a
  induction a with
  | nil =>
    intro b c d _ hb h
    cases b with
    | nil => simpa using h
    | cons y ys =>
      simp only [List.nil_append, List.cons_append] at h
      injection h with h1 h2
      subst h1
      exact absurd (List.mem_cons_self _ ys) hb
  | cons x xs ih =>
    intro b c d ha hb h
    cases b with
    | nil =>
      simp only [List.cons_append, List.nil_append] at h
      injection h with h1 h2
      subst h1
      exact absurd (List.mem_cons_self _ xs) ha
    | cons y ys =>
      simp only [List.cons_append] at h
      injection h with h1 h2
      have hxs : '_' ∉ xs := fun hm => ha (List.mem_cons_of_mem x hm)
      have hys : '_' ∉ ys := fun hm => hb (List.mem_cons_of_mem y hm)
      obtain ⟨he, hf⟩ := ih ys c d hxs hys h2
      exact ⟨by rw [h1, he], hf⟩

/-- The character list underlying a resolved namespace. -/
theorem data_resolveNamespace (u c : String) :
    (resolveNamespace u c).data =
      'u' :: 's' :: 'e' :: 'r' :: '_' :: (u.data ++ '_' :: c.data) := by
  simp only [resolveNamespace, String.data_append, List.append_assoc]
  rfl

/-- C5: for userId/category pairs over an alphabet without the separator
`'_'`, the namespace resolution returns exactly `user_{userId}_{category}`,
is deterministic (equal inputs give equal namespaces), and is injective:
distinct pairs give distinct namespaces. -/
theorem C5_resolveNamespace_injective (u1 c1 u2 c2 : String)
    (hu1 : '_' ∉ u1.data) (hu2 : '_' ∉ u2.data)
    (_hc1 : '_' ∉ c1.data) (_hc2 : '_' ∉ c2.data) :
    resolveNamespace u1 c1 = "user_" ++ u1 ++ "_" ++ c1 ∧
    (u1 = u2 → c1 = c2 → resolveNamespace u1 c1 = resolveNamespace u2 c2) ∧
    (resolveNamespace u1 c1 = resolveNamespace u2 c2 → u1 = u2 ∧ c1 = c2) := by
  refine ⟨rfl, fun h1 h2 => by rw [h1, h2], fun h => ?_⟩
  have hd := congrArg String.data h
  rw [data_resolveNamespace, data_resolveNamespace] at hd
  simp only [List.cons.injEq, true_and] at hd
  obtain ⟨he, hf⟩ := underscore_split u1.data u2.data c1.data c2.data hu1 hu2 hd
  exact ⟨String.ext he, String.ext hf⟩

/-- Witness for C5: concrete separator-free identifiers. -/
theorem C5_resolveNamespace_injective_witness :
    resolveNamespace "alice" "finance" = "user_" ++ "alice" ++ "_" ++ "finance" ∧
    ("alice" = "bob" → "finance" = "health" →
      resolveNamespace "alice" "finance" = resolveNamespace "bob" "health") ∧
    (resolveNamespace "alice" "finance" = resolveNamespace "bob" "health" →
      "alice" = "bob" ∧ "finance" = "health") :=
  C5_resolveNamespace_injective "alice" "finance" "bob" "health"
    (by decide) (by decide) (by decide) (by decide)

/-- C3: every edge emitted by the graph export has both endpoints carrying
the same `group_id`, and that namespace lies in the scoped namespace set —
the single resolved namespace when a category is given, otherwise the
prefix-matched set of the user's namespaces.  Cross-namespace edges are
never present, including in the no-category case. -/
theorem C3_export_edges_same_namespace (db : GraphDB) (u : String)
    (cat : Option String) (e : EdgeOut) (he : e ∈ visualizeEdges db u cat) :
    ∃ s t g, findNode db e.source = Option.some s ∧
      findNode db e.target = Option.some t ∧
      s.group_id = Option.some g ∧ t.group_id = Option.some g ∧
      g ∈ scopedNamespaces db u cat := by
  unfold visualizeEdges at he
  by_cases hc : pyTruthyStr cat = true
  · rw [if_pos hc] at he
    simp only [edgeRows, List.mem_filterMap] at he
    obtain ⟨r, hr, hfr⟩ := he
    cases hs : findNode db r.src with
    | none => rw [hs] at hfr; exact Option.noConfusion hfr
    | some s =>
      rw [hs] at hfr
      cases ht : findNode db r.tgt with
      | none => rw [ht] at hfr; exact Option.noConfusion hfr
      | some t =>
        rw [ht] at hfr
        dsimp only at hfr
        by_cases hcond : (s.isEntity && t.isEntity &&
            edgeCondCat (resolveNamespace u (cat.getD "")) s t) = true
        case neg => rw [if_neg hcond] at hfr; exact Option.noConfusion hfr
        case pos =>
          rw [if_pos hcond] at hfr
          injection hfr with hfe
          subst hfe
          simp only [Bool.and_eq_true, edgeCondCat, beq_iff_eq] at hcond
          obtain ⟨⟨_, _⟩, hsg, htg⟩ := hcond
          refine ⟨s, t, resolveNamespace u (cat.getD ""), hs, ht, hsg, htg, ?_⟩
          rw [scopedNamespaces, if_pos hc]
          exact List.mem_singleton.mpr rfl
  · rw [if_neg hc] at he
    simp only [edgeRows, List.mem_filterMap] at he
    obtain ⟨r, hr, hfr⟩ := he
    cases hs : findNode db r.src with
    | none => rw [hs] at hfr; exact Option.noConfusion hfr
    | some s =>
      rw [hs] at hfr
      cases ht : findNode db r.tgt with
      | none => rw [ht] at hfr; exact Option.noConfusion hfr
      | some t =>
        rw [ht] at hfr
        dsimp only at hfr
        by_cases hcond : (s.isEntity && t.isEntity &&
            edgeCondPre (userPrefix u) s t) = true
        case neg => rw [if_neg hcond] at hfr; exact Option.noConfusion hfr
        case pos =>
          rw [if_pos hcond] at hfr
          injection hfr with hfe
          subst hfe
          simp only [Bool.and_eq_true] at hcond
          obtain ⟨⟨_, _⟩, hpre⟩ := hcond
          rw [edgeCondPre] at hpre
          cases hsg : s.group_id with
          | none => rw [hsg] at hpre; exact Bool.noConfusion hpre
          | some gs =>
            rw [hsg] at hpre
            cases htg : t.group_id with
            | none => rw [htg] at hpre; exact Bool.noConfusion hpre
            | some gt =>
              rw [htg] at hpre
              simp only [Bool.and_eq_true, beq_iff_eq] at hpre
              obtain ⟨⟨hgs, hgt⟩, hee⟩ := hpre
              subst hee
              refine ⟨s, t, gs, hs, ht, hsg, htg, ?_⟩
              rw [scopedNamespaces, if_neg hc]
              refine List.mem_filter.mpr ⟨?_, hgs⟩
              exact List.mem_filterMap.mpr ⟨s, List.mem_of_find?_eq_some hs, hsg⟩

/-- Witness for C3: the one emitted edge of the sample store, in the
no-category case, has both endpoints in namespace `user_1_work`. -/
theorem C3_export_edges_same_namespace_witness :
    ∃ s t g, findNode sampleDb 0 = Option.some s ∧
      findNode sampleDb 1 = Option.some t ∧
      s.group_id = Option.some g ∧ t.group_id = Option.some g ∧
      g ∈ scopedNamespaces sampleDb "1" Option.none :=
  C3_export_edges_same_namespace sampleDb "1" Option.none
    { eid := 10, source := 0, target := 1, label := "KNOWS" } (by decide)

/-- A successful `findClose` returns a strict suffix. -/
theorem findClose_length : ∀ (l r : List Char), findClose l = Option.some r →
    r.length < l.length := by
  intro l
  induction l with
  | nil => intro r h; exact Option.noConfusion h
  | cons c cs ih =>
    intro r h
    simp only [findClose] at h
    by_cases h1 : (c == '>') = true
    · rw [if_pos h1] at h
      injection h with h2
      subst h2
      simp
    · rw [if_neg h1] at h
      by_cases h2 : (c == '\n') = true
      · rw [if_pos h2] at h; exact Option.noConfusion h
      · rw [if_neg h2] at h
        exact Nat.lt_trans (ih r h) (by simp)

/-- The fuel argument of `removeTagsAux` is irrelevant once it covers the
input length. -/
theorem removeTagsAux_irrel : ∀ (f1 : Nat) (l : List Char) (f2 : Nat),
    l.length ≤ f1 → l.length ≤ f2 → removeTagsAux f1 l = removeTagsAux f2 l := by
  intro f1
  induction f1 with
  | zero =>
    intro l f2 h1 _
    have hl : l = [] := List.length_eq_zero.mp (Nat.le_zero.mp h1)
    subst hl
    cases f2 <;> rfl
  | succ g ih =>
    intro l f2 h1 h2
    cases l with
    | nil => cases f2 <;> rfl
    | cons c rest =>
      cases f2 with
      | zero => exact absurd h2 (by simp)
      | succ g2 =>
        have hr1 : rest.length ≤ g := Nat.le_of_succ_le_succ h1
        have hr2 : rest.length ≤ g2 := Nat.le_of_succ_le_succ h2
        show removeTagsAux (g + 1) (c :: rest) = removeTagsAux (g2 + 1) (c :: rest)
        simp only [removeTagsAux]
        by_cases hlt : (c == '<') = true
        · rw [if_pos hlt, if_pos hlt]
          cases hfc : findClose rest with
          | some rest2 =>
            have hl2 : rest2.length < rest.length := findClose_length rest rest2 hfc
            exact ih rest2 g2 (Nat.le_of_lt (Nat.lt_of_lt_of_le hl2 hr1))
              (Nat.le_of_lt (Nat.lt_of_lt_of_le hl2 hr2))
          | none => exact congrArg (List.cons c) (ih rest g2 hr1 hr2)
        · rw [if_neg hlt, if_neg hlt]
          exact congrArg (List.cons c) (ih rest g2 hr1 hr2)

/-- Unfolding equation of `removeTags` on a cons cell. -/
theorem removeTags_cons (c : Char) (rest : List Char) :
    removeTags (c :: rest) =
      if (c == '<') = true then
        match findClose rest with
        | Option.some rest2 => removeTags rest2
        | Option.none => c :: removeTags rest
      else c :: removeTags rest := by
  show removeTagsAux (rest.length + 1) (c :: rest) = _
  simp only [removeTagsAux]
  by_cases hlt : (c == '<') = true
  · rw [if_pos hlt, if_pos hlt]
    cases hfc : findClose rest with
    | some rest2 =>
      exact removeTagsAux_irrel rest.length rest2 rest2.length
        (Nat.le_of_lt (findClose_length rest rest2 hfc)) (Nat.le_refl _)
    | none => rfl
  · rw [if_neg hlt, if_neg hlt]
    rfl

/-- If no `>` closes before a newline or the end, tag removal on the rest of
the text cannot create one: `findClose` still fails on the output. -/
theorem findClose_none_removeTags : ∀ (n : Nat) (l : List Char), l.length ≤ n →
    findClose l = Option.none → findClose (removeTags l) = Option.none := by
  intro n
  induction n with
  | zero =>
    intro l h1 _
    have hl : l = [] := List.length_eq_zero.mp (Nat.le_zero.mp h1)
    subst hl
    rfl
  | succ g ih =>
    intro l h1 hfc
    cases l with
    | nil => rfl
    | cons c rest =>
      have hr1 : rest.length ≤ g := Nat.le_of_succ_le_succ h1
      simp only [findClose] at hfc
      by_cases h1c : (c == '>') = true
      · rw [if_pos h1c] at hfc; exact Option.noConfusion hfc
      · rw [if_neg h1c] at hfc
        by_cases h2c : (c == '\n') = true
        · have hcn : c = '\n' := by simpa using h2c
          subst hcn
          rw [removeTags_cons]
          rfl
        · rw [if_neg h2c] at hfc
          rw [removeTags_cons]
          by_cases h3c : (c == '<') = true
          · rw [if_pos h3c, hfc]
            show findClose (c :: removeTags rest) = Option.none
            simp only [findClose, if_neg h1c, if_neg h2c]
            exact ih rest hr1 hfc
          · rw [if_neg h3c]
            simp only [findClose, if_neg h1c, if_neg h2c]
            exact ih rest hr1 hfc

/-- The output of tag removal contains no remaining match of the tag
pattern: `re.sub(r'<.*?>', '', text)` removes every tag-like substring. -/
theorem removeTags_no_tag_aux : ∀ (n : Nat) (l : List Char), l.length ≤ n →
    hasTag (removeTags l) = false := by
  intro n
  induction n with
  | zero =>
    intro l h1
    have hl : l = [] := List.length_eq_zero.mp (Nat.le_zero.mp h1)
    subst hl
    rfl
  | succ g ih =>
    intro l h1
    cases l with
    | nil => rfl
    | cons c rest =>
      have hr1 : rest.length ≤ g := Nat.le_of_succ_le_succ h1
      rw [removeTags_cons]
      by_cases h3c : (c == '<') = true
      · rw [if_pos h3c]
        cases hfc : findClose rest with
        | some rest2 =>
          have hl2 : rest2.length < rest.length := findClose_length rest rest2 hfc
          exact ih rest2 (Nat.le_of_lt (Nat.lt_of_lt_of_le hl2 hr1))
        | none =>
          show hasTag (c :: removeTags rest) = false
          simp only [hasTag, Bool.or_eq_false_iff, Bool.and_eq_false_iff]
          refine ⟨Or.inr ?_, ih rest hr1⟩
          rw [findClose_none_removeTags rest.length rest (Nat.le_refl _) hfc]
          rfl
      · rw [if_neg h3c]
        show hasTag (c :: removeTags rest) = false
        simp only [hasTag, Bool.or_eq_false_iff, Bool.and_eq_false_iff]
        exact ⟨Or.inl (by simpa using h3c), ih rest hr1⟩

/-- Every word produced by `str.split()` is non-empty and whitespace-free. -/
theorem splitWs_sound : ∀ (l acc : List Char),
    (∀ c ∈ acc, pyIsSpace c = false) →
    ∀ w ∈ splitWs l acc, w ≠ [] ∧ ∀ c ∈ w, pyIsSpace c = false := by
  intro l
  induction l with
  | nil =>
    intro acc hacc w hw
    simp only [splitWs] at hw
    by_cases hae : acc.isEmpty = true
    · rw [if_pos hae] at hw; exact absurd hw (List.not_mem_nil w)
    · rw [if_neg hae] at hw
      have hw2 : w = acc.reverse := by simpa using hw
      subst hw2
      refine ⟨?_, fun c hc => hacc c (List.mem_reverse.mp hc)⟩
      simp only [ne_eq, List.reverse_eq_nil_iff]
      intro hnil
      rw [hnil] at hae
      exact hae rfl
  | cons c cs ih =>
    intro acc hacc w hw
    simp only [splitWs] at hw
    by_cases hsp : pyIsSpace c = true
    · rw [if_pos hsp] at hw
      by_cases hae : acc.isEmpty = true
      · rw [if_pos hae] at hw
        exact ih [] (by simp) w hw
      · rw [if_neg hae] at hw
        rcases List.mem_cons.mp hw with hw1 | hw2
        · subst hw1
          refine ⟨?_, fun d hd => hacc d (List.mem_reverse.mp hd)⟩
          simp only [ne_eq, List.reverse_eq_nil_iff]
          intro hnil
          rw [hnil] at hae
          exact hae rfl
        · exact ih [] (by simp) w hw2
    · rw [if_neg hsp] at hw
      refine ih (c :: acc) ?_ w hw
      intro d hd
      rcases List.mem_cons.mp hd with hd1 | hd2
      · subst hd1; simpa using hsp
      · exact hacc d hd2

/-- A whitespace-free text has no double whitespace. -/
theorem noDoubleWs_of_nows : ∀ (w : List Char),
    (∀ c ∈ w, pyIsSpace c = false) → noDoubleWs w = true := by
  intro w
  induction w with
  | nil => intro _; rfl
  | cons c cs ih =>
    intro h
    cases cs with
    | nil => rfl
    | cons d rest =>
      simp only [noDoubleWs, Bool.and_eq_true, Bool.not_eq_true']
      refine ⟨?_, ih (fun x hx => h x (List.mem_cons_of_mem c hx))⟩
      simp [h c (List.mem_cons_self c _)]

/-- A whitespace-free text does not start with whitespace. -/
theorem headNotWs_of_nows : ∀ (w : List Char),
    (∀ c ∈ w, pyIsSpace c = false) → headNotWs w = true := by
  intro w h
  cases w with
  | nil => rfl
  | cons c cs => simp [headNotWs, h c (List.mem_cons_self c cs)]

/-- Appending onto a whitespace-free block preserves `noDoubleWs`. -/
theorem noDoubleWs_append_nows : ∀ (a b : List Char),
    (∀ c ∈ a, pyIsSpace c = false) → noDoubleWs b = true →
    noDoubleWs (a ++ b) = true := by
  intro a
  induction a with
  | nil => intro b _ hb; simpa using hb
  | cons x xs ih =>
    intro b ha hb
    have hx : pyIsSpace x = false := ha x (List.mem_cons_self x xs)
    have ha2 : ∀ c ∈ xs, pyIsSpace c = false :=
      fun c hc => ha c (List.mem_cons_of_mem x hc)
    cases xs with
    | nil =>
      cases b with
      | nil => rfl
      | cons y bs =>
        simp only [List.singleton_append, noDoubleWs, Bool.and_eq_true]
        exact ⟨by simp [hx], hb⟩
    | cons x2 xs2 =>
      simp only [List.cons_append, noDoubleWs, Bool.and_eq_true]
      constructor
      · simp [hx]
      · exact ih b ha2 hb

/-- The head of an append starting with a non-empty whitespace-free block is
not whitespace. -/
theorem headNotWs_append_nows (a b : List Char) (hne : a ≠ [])
    (ha : ∀ c ∈ a, pyIsSpace c = false) : headNotWs (a ++ b) = true := by
  cases a with
  | nil => exact absurd rfl hne
  | cons c cs => simp [headNotWs, ha c (List.mem_cons_self c cs)]

/-- The head of an append is the head of its non-empty first part. -/
theorem headNotWs_append_left (a b : List Char) (hne : a ≠ [])
    (ha : headNotWs a = true) : headNotWs (a ++ b) = true := by
  cases a with
  | nil => exact absurd rfl hne
  | cons c cs => simpa [headNotWs] using ha

/-- Joining non-empty words yields a non-empty text. -/
theorem joinSpace_ne_nil : ∀ (ws : List (List Char)), ws ≠ [] →
    (∀ w ∈ ws, w ≠ []) → joinSpace ws ≠ [] := by
  intro ws hne hw
  cases ws with
  | nil => exact absurd rfl hne
  | cons w ws2 =>
    cases ws2 with
    | nil => exact hw w (List.mem_cons_self w _)
    | cons w2 ws3 =>
      show w ++ ' ' :: joinSpace (w2 :: ws3) ≠ []
      simp

/-- `' '.join` of non-empty whitespace-free words has no double whitespace
and neither starts nor ends with whitespace. -/
theorem joinSpace_good : ∀ (ws : List (List Char)),
    (∀ w ∈ ws, w ≠ [] ∧ ∀ c ∈ w, pyIsSpace c = false) →
    noDoubleWs (joinSpace ws) = true ∧ headNotWs (joinSpace ws) = true ∧
      headNotWs (joinSpace ws).reverse = true := by
  intro ws
  induction ws with
  | nil => intro _; exact ⟨rfl, rfl, rfl⟩
  | cons w ws2 ih =>
    intro h
    obtain ⟨hwne, hwno⟩ := h w (List.mem_cons_self w ws2)
    have h2 : ∀ x ∈ ws2, x ≠ [] ∧ ∀ c ∈ x, pyIsSpace c = false :=
      fun x hx => h x (List.mem_cons_of_mem w hx)
    cases ws2 with
    | nil =>
      refine ⟨noDoubleWs_of_nows w hwno, headNotWs_of_nows w hwno, ?_⟩
      exact headNotWs_of_nows w.reverse (fun c hc => hwno c (List.mem_reverse.mp hc))
    | cons w2 ws3 =>
      obtain ⟨ihd, ihh, ihr⟩ := ih h2
      have hjne : joinSpace (w2 :: ws3) ≠ [] :=
        joinSpace_ne_nil (w2 :: ws3) (by simp) (fun x hx => (h2 x hx).1)
      have hjoin : joinSpace (w :: w2 :: ws3) = w ++ ' ' :: joinSpace (w2 :: ws3) := rfl
      rw [hjoin]
      refine ⟨?_, ?_, ?_⟩
      · refine noDoubleWs_append_nows w (' ' :: joinSpace (w2 :: ws3)) hwno ?_
        cases hj : joinSpace (w2 :: ws3) with
        | nil => exact absurd hj hjne
        | cons d rest =>
          simp only [noDoubleWs, Bool.and_eq_true]
          constructor
          · rw [hj] at ihh
            simp only [headNotWs, Bool.not_eq_true'] at ihh
            simp [ihh]
          · rw [hj] at ihd
            exact ihd
      · exact headNotWs_append_nows w _ hwne hwno
      · rw [List.reverse_append, List.reverse_cons, List.append_assoc]
        refine headNotWs_append_left _ _ ?_ ihr
        simp only [ne_eq, List.reverse_eq_nil_iff]
        exact hjne

/-- Dropping leading whitespace is the identity on a text that does not
start with whitespace. -/
theorem dropWhile_headNot (l : List Char) (h : headNotWs l = true) :
    l.dropWhile pyIsSpace = l := by
  cases l with
  | nil => rfl
  | cons c cs =>
    simp only [headNotWs, Bool.not_eq_true'] at h
    simp [List.dropWhile_cons, h]

/-- `str.strip()` is the identity on a text that neither starts nor ends
with whitespace. -/
theorem pyStrip_eq_self (l : List Char) (h1 : headNotWs l = true)
    (h2 : headNotWs l.reverse = true) : pyStrip l = l := by
  rw [pyStrip, dropWhile_headNot l h1, dropWhile_headNot l.reverse h2,
    List.reverse_reverse]

/-- C6: `_clean_response` removes every match of the tag pattern `<.*?>`
in its tag-removal pass (first conjunct), and its output never contains two
consecutive whitespace characters and neither starts nor ends with
whitespace — whitespace runs are collapsed and the ends trimmed; on the
spec's example input it returns exactly `"Paris is the capital"`. -/
theorem C6_clean_response (s : String) :
    hasTag (removeTags s.data) = false ∧
    noDoubleWs (cleanResponse s).data = true ∧
    headNotWs (cleanResponse s).data = true ∧
    headNotWs (cleanResponse s).data.reverse = true ∧
    cleanResponse "  <b>Paris</b>   is the   capital  " = "Paris is the capital" := by
  have words := splitWs_sound (removeTags s.data) [] (by simp)
  obtain ⟨hnd, hh, hr⟩ := joinSpace_good (splitWs (removeTags s.data) []) words
  have hstrip : pyStrip (joinSpace (splitWs (removeTags s.data) [])) =
      joinSpace (splitWs (removeTags s.data) []) := pyStrip_eq_self _ hh hr
  have hdata : (cleanResponse s).data = joinSpace (splitWs (removeTags s.data) []) := by
    rw [cleanResponse]
    show pyStrip (joinSpace (splitWs (removeTags s.data) [])) = _
    exact hstrip
  refine ⟨removeTags_no_tag_aux s.data.length s.data (Nat.le_refl _), ?_, ?_, ?_, by decide⟩
  · rw [hdata]; exact hnd
  · rw [hdata]; exact hh
  · rw [hdata]; exact hr

end MemoryApi
